import Mathlib

/-!
Verification of the minefield reveal engine of `src/main.py`
(`Cell` / `Minefield` classes of the blessed_minesweeper repository).

Embedding conventions:
* A grid coordinate (`Position`) is an `Int × Int` pair, as in the source
  (python ints; numpy indexing of `Minefield.cells` accepts negative ints).
* The immutable part of a `Minefield` (its size and the mine layout chosen at
  construction) is a `Grid`.  The rejection sampler `__place_mines` is modelled
  separately (`place_mines_loop`) with its random draws supplied by a stream.
* The mutable per-cell attributes (`is_revealed`, `is_flagged`,
  `clicked_auto_reveal`, `symbol`) and `cursor_position` form an `MState`.
  Cells compare by identity in python and there is exactly one cell object per
  coordinate, so cell identity is coordinate equality.
* `Cell.reveal` recurses through neighbours; every recursive call
  `neighbour.reveal()` in the source passes no argument, so each call creates a
  fresh `visited` set holding only the callee.  The recursion is embedded with
  explicit fuel (`revealGo`), `none` meaning the call tree was cut off before
  completing; totality is proved as a fuel-sufficiency theorem.
* Two ghost counters instrument the walk without feeding back into it:
  `visits q` counts how often `reveal` was entered on cell `q` past the flag
  guard (the `visited.add(self)` line), `revs q` counts how often the
  first-reveal branch (`self.is_revealed = True`) ran on `q`.
-/

abbrev Position := Int × Int

def symUNREVEALED : String := "%"
def symEMPTY : String := " "
def symMINE : String := "*"
def symFLAGGED : String := "X"

structure Grid where
  width : Nat
  height : Nat
  mines : Position → Bool

/-- `0 <= nx < ... width and 0 <= ny < ... height` (source line 34). -/
def inGrid (g : Grid) (p : Position) : Bool :=
  decide (0 ≤ p.1) && decide (p.1 < (g.width : Int)) &&
  decide (0 ≤ p.2) && decide (p.2 < (g.height : Int))

/-- The eight relative offsets, in source order (line 31). -/
def directions : List (Int × Int) :=
  [(-1, -1), (-1, 0), (-1, 1), (0, -1), (0, 1), (1, -1), (1, 0), (1, 1)]

/-- `Cell.neighbours` (lines 29-36). -/
def neighbours (g : Grid) (p : Position) : List Position :=
  directions.filterMap (fun d =>
    let n : Position := (p.1 + d.1, p.2 + d.2)
    if inGrid g n then some n else none)

structure MState where
  is_revealed : Position → Bool
  is_flagged : Position → Bool
  clicked_auto_reveal : Position → Bool
  symbol : Position → String
  cursor_position : Position
  visits : Position → Nat
  revs : Position → Nat

/-- Cell construction state (lines 23-27); cursor starts at `top_left`
(line 91).  Ghost counters start at zero. -/
def initState (tl : Position) : MState :=
  { is_revealed := fun _ => false
    is_flagged := fun _ => false
    clicked_auto_reveal := fun _ => false
    symbol := fun _ => symUNREVEALED
    cursor_position := tl
    visits := fun _ => 0
    revs := fun _ => 0 }

def updB (f : Position → Bool) (p : Position) (v : Bool) : Position → Bool :=
  fun q => if q = p then v else f q

def updS (f : Position → String) (p : Position) (v : String) : Position → String :=
  fun q => if q = p then v else f q

def updN (f : Position → Nat) (p : Position) : Position → Nat :=
  fun q => if q = p then f q + 1 else f q

/-- Ghost: entering `reveal` past the flag guard (`visited.add(self)`). -/
def bumpVisit (st : MState) (p : Position) : MState :=
  { st with visits := updN st.visits p }

def setAuto (st : MState) (p : Position) : MState :=
  { st with clicked_auto_reveal := updB st.clicked_auto_reveal p true }

/-- `self.is_revealed = True` (line 61), with its ghost counter. -/
def setRevealed (st : MState) (p : Position) : MState :=
  { st with is_revealed := updB st.is_revealed p true, revs := updN st.revs p }

def setSymbol (st : MState) (p : Position) (v : String) : MState :=
  { st with symbol := updS st.symbol p v }

/-- `sum(neighbour.is_mine for neighbour in self.neighbours())` (line 52/65). -/
def mineCnt (g : Grid) (p : Position) : Nat :=
  (neighbours g p).countP (fun n => g.mines n)

/-- `sum(neighbour.is_flagged for neighbour in self.neighbours())` (line 53). -/
def flagCnt (g : Grid) (st : MState) (p : Position) : Nat :=
  (neighbours g p).countP (fun n => st.is_flagged n)

/-- Sequentially runs `f` over a list of target cells, skipping targets on
which `guard` fails in the state current at their turn.  This is the shape of
the two `for neighbour in self.neighbours()` loops of `Cell.reveal`. -/
def runList (f : MState → Position → Option MState)
    (guard : MState → Position → Bool) :
    MState → List Position → Option MState
  | st, [] => some st
  | st, n :: ns =>
    if guard st n then
      match f st n with
      | none => none
      | some st' => runList f guard st' ns
    else runList f guard st ns

/-- `Cell.reveal` (lines 38-70), fuel-indexed.  Every recursive call in the
source is `neighbour.reveal()` with no argument, so the callee starts a fresh
`visited = {self}`; hence the `visited` each loop tests against is always the
one-element list `[p]`. -/
def revealGo (g : Grid) : Nat → MState → Position → Option MState
  | 0, _, _ => none
  | fuel + 1, st, p =>
    if st.is_flagged p then some st
    else
      let st1 := bumpVisit st p
      let visited : List Position := [p]
      if st1.is_revealed p then
        if mineCnt g p = flagCnt g st1 p ∧ st1.clicked_auto_reveal p = false then
          runList (revealGo g fuel)
            (fun s n => !s.is_flagged n && !visited.contains n)
            (setAuto st1 p) (neighbours g p)
        else some st1
      else
        let st2 := setRevealed st1 p
        if g.mines p then some (setSymbol st2 p symMINE)
        else
          let mc := mineCnt g p
          let st3 := setSymbol st2 p (if 0 < mc then Nat.repr mc else symEMPTY)
          if mc = 0 then
            runList (revealGo g fuel)
              (fun _ n => !visited.contains n) st3 (neighbours g p)
          else some st3

/-- Grid cells in the `for x ... for y ...` iteration order used by
`reveal_all` (lines 134-138) and `all_cells_revealed_except_mines`. -/
def cellsList (g : Grid) : List Position :=
  (List.range g.width).flatMap
    (fun x => (List.range g.height).map (fun y => (Int.ofNat x, Int.ofNat y)))

/-- Fuel that the termination theorem proves sufficient for any state. -/
def bigFuel (g : Grid) : Nat := 2 * (g.width * g.height) + 1

/-- `Minefield.reveal_all` (lines 134-138): calls the full `cell.reveal()` on
every cell in grid order. -/
def reveal_all (g : Grid) (st : MState) : Option MState :=
  runList (revealGo g (bigFuel g)) (fun _ _ => true) st (cellsList g)

def setFlagSym (st : MState) (p : Position) (v : Bool) (s : String) : MState :=
  { st with is_flagged := updB st.is_flagged p v, symbol := updS st.symbol p s }

/-- `Cell.flag` (lines 72-79). -/
def flagCell (st : MState) (p : Position) : MState :=
  if st.is_revealed p then st
  else if st.is_flagged p then setFlagSym st p false symUNREVEALED
  else setFlagSym st p true symFLAGGED

/-- numpy basic indexing of one axis of length `n`: indices in `[0, n)` are
taken as-is, indices in `[-n, 0)` wrap around to `n + i`, anything else raises
`IndexError` (modelled as `none`). -/
def npIdx (n : Nat) (i : Int) : Option Int :=
  if 0 ≤ i ∧ i < (n : Int) then some i
  else if -(n : Int) ≤ i ∧ i < 0 then some (i + n)
  else none

/-- `Minefield.reveal` (lines 130-132): `self.cells[position.x, position.y]`
then `cell.reveal()`. -/
def mfReveal (g : Grid) (st : MState) (pos : Position) : Option MState :=
  match npIdx g.width pos.1, npIdx g.height pos.2 with
  | some x, some y => revealGo g (bigFuel g) st (x, y)
  | _, _ => none

/-- `Minefield.flag` (lines 140-141). -/
def mfFlag (g : Grid) (st : MState) (pos : Position) : Option MState :=
  match npIdx g.width pos.1, npIdx g.height pos.2 with
  | some x, some y => some (flagCell st (x, y))
  | _, _ => none

/-- `Minefield.all_cells_revealed_except_mines` (lines 143-149): false iff some
cell has `not cell.is_revealed and not cell.is_mine`. -/
def all_cells_revealed_except_mines (g : Grid) (st : MState) : Bool :=
  (cellsList g).all (fun p => st.is_revealed p || g.mines p)

/-- `Minefield.move_cursor` (lines 101-117). -/
def move_cursor (g : Grid) (st : MState) (dx dy : Int) : MState :=
  let newx := st.cursor_position.1 + dx
  let newy := st.cursor_position.2 + dy
  let maxx : Int := (g.width : Int) - 1
  let maxy : Int := (g.height : Int) - 1
  let newx := if newx > maxx then maxx else if newx < 0 then 0 else newx
  let newy := if newy > maxy then maxy else if newy < 0 then 0 else newy
  { st with cursor_position := (newx, newy) }

/-- `Minefield.__place_mines` (lines 119-128): rejection-sampling loop, the
`i`-th draw of the pair `random.randint(0, width-1), random.randint(0,
height-1)` supplied by `stream i`.  Fuel counts loop iterations; `none` means
the `while` loop was still running when the fuel ran out. -/
def place_mines_loop (num_mines : Nat) (stream : Nat → Position) :
    Nat → List Position → Nat → Option (List Position)
  | 0, _, _ => none
  | fuel + 1, acc, i =>
    if num_mines ≤ acc.length then some acc
    else if stream i ∈ acc then place_mines_loop num_mines stream fuel acc (i + 1)
    else place_mines_loop num_mines stream fuel (acc ++ [stream i]) (i + 1)

/-- One player/game action on the minefield, as dispatched by the main loop:
`Minefield.reveal` at an in-bounds position (the clamped cursor), `flag`,
`reveal_all`, or `move_cursor`. -/
inductive GameStep (g : Grid) : MState → MState → Prop where
  | reveal : ∀ st p fuel st', inGrid g p = true →
      revealGo g fuel st p = some st' → GameStep g st st'
  | flag : ∀ st p, inGrid g p = true → GameStep g st (flagCell st p)
  | revealAll : ∀ st st', reveal_all g st = some st' → GameStep g st st'
  | move : ∀ st dx dy, GameStep g st (move_cursor g st dx dy)

/-- States reachable from grid construction by game actions. -/
def Reachable (g : Grid) (tl : Position) (st : MState) : Prop :=
  Relation.ReflTransGen (GameStep g) (initState tl) st

/-- The contiguous zero-region of `p` together with its boundary: everything
reachable from `p` by steps that leave a cell with zero mine-neighbours. -/
def ZeroReach (g : Grid) (p q : Position) : Prop :=
  Relation.ReflTransGen
    (fun a b => mineCnt g a = 0 ∧ b ∈ neighbours g a) p q

/-- As `ZeroReach`, but walking only across unflagged cells. -/
def ZeroReachU (g : Grid) (st : MState) (p q : Position) : Prop :=
  Relation.ReflTransGen
    (fun a b => mineCnt g a = 0 ∧ b ∈ neighbours g a ∧ st.is_flagged b = false)
    p q

/-- What a single (arbitrarily deep) `Cell.reveal` call can do to the state:
`is_revealed` and `clicked_auto_reveal` only ever switch on, flags and the
cursor are untouched, a flagged cell's `is_revealed` is untouched, and the
ghost `revs` counter increments exactly when `is_revealed` flips. -/
def StepRel (s1 s2 : MState) : Prop :=
  (∀ q, s1.is_revealed q = true → s2.is_revealed q = true) ∧
  (∀ q, s1.clicked_auto_reveal q = true → s2.clicked_auto_reveal q = true) ∧
  (∀ q, s2.is_flagged q = s1.is_flagged q) ∧
  (∀ q, s1.is_flagged q = true → s2.is_revealed q = s1.is_revealed q) ∧
  (∀ q, s2.revs q + (if s1.is_revealed q = true then 1 else 0) =
        s1.revs q + (if s2.is_revealed q = true then 1 else 0)) ∧
  s2.cursor_position = s1.cursor_position

/-- Cells still to be first-revealed plus chords still to fire. -/
def mu (g : Grid) (st : MState) : Nat :=
  (cellsList g).countP (fun p => !st.is_revealed p) +
  (cellsList g).countP (fun p => !st.clicked_auto_reveal p)

/-- Zero-closedness with an exception relation `E`: every revealed non-mine
cell with zero mine-neighbours has each unflagged neighbour revealed, except
for pairs excused by `E` (used for the neighbours still pending in a loop). -/
def zc (g : Grid) (E : Position → Position → Prop) (st : MState) : Prop :=
  ∀ a, st.is_revealed a = true → g.mines a = false → mineCnt g a = 0 →
    ∀ b ∈ neighbours g a, st.is_flagged b = false →
      st.is_revealed b = true ∨ E a b

/-! ### Concrete grids and states used to evaluate the code -/

/-- 1 x 2 grid, no mines. -/
def g12 : Grid := { width := 1, height := 2, mines := fun _ => false }
/-- 1 x 3 grid, no mines. -/
def g13 : Grid := { width := 1, height := 3, mines := fun _ => false }
/-- 2 x 3 grid, no mines. -/
def g23 : Grid := { width := 2, height := 3, mines := fun _ => false }
/-- 2 x 2 grid, no mines. -/
def g22 : Grid := { width := 2, height := 2, mines := fun _ => false }
/-- 2 x 1 grid, no mines. -/
def g21 : Grid := { width := 2, height := 1, mines := fun _ => false }
/-- 1 x 1 grid, no mines. -/
def g1 : Grid := { width := 1, height := 1, mines := fun _ => false }
/-- 2 x 2 grid with a single mine at (0,0); its mine-neighbour count is 0. -/
def gM : Grid :=
  { width := 2, height := 2, mines := fun q => decide (q = ((0 : Int), (0 : Int))) }
/-- 2 x 2 grid with a single mine at (1,1). -/
def g2m : Grid :=
  { width := 2, height := 2, mines := fun q => decide (q = ((1 : Int), (1 : Int))) }

/-- 1 x 3 board state with the middle cell flagged (via `Cell.flag`). -/
def stF13 : MState := flagCell (initState (0, 0)) ((0 : Int), (1 : Int))
/-- 2 x 3 board state: (0,1) already revealed (its chord never fired) and
(1,1) flagged; reachable by flagging the neighbourhood of (0,1), revealing it,
then unflagging everything except (1,1). -/
def st23 : MState :=
  { initState (0, 0) with
    is_revealed := fun q => decide (q = ((0 : Int), (1 : Int))),
    is_flagged := fun q => decide (q = ((1 : Int), (1 : Int))) }
/-- 2 x 1 board state with (0,0) already revealed. -/
def stW : MState :=
  { initState (0, 0) with
    is_revealed := fun q => decide (q = ((0 : Int), (0 : Int))) }
/-- 1 x 1 board state with the only cell flagged (via `Cell.flag`). -/
def stF1 : MState := flagCell (initState (0, 0)) ((0 : Int), (0 : Int))
/-- A state with every cell revealed (used to exercise monotonicity). -/
def stAllRev : MState := { initState (0, 0) with is_revealed := fun _ => true }

/-! ### Basic facts about the grid geometry -/

theorem not_mem_neighbours_self (g : Grid) (p : Position) :
    p ∉ neighbours g p := by
  intro h
  simp only [neighbours, List.mem_filterMap] at h
  obtain ⟨d, hd, he⟩ := h
  by_cases hg : inGrid g (p.1 + d.1, p.2 + d.2) = true
  · rw [if_pos hg] at he
    have he' := Option.some.inj he
    have h1 : p.1 + d.1 = p.1 := congrArg Prod.fst he'
    have h2 : p.2 + d.2 = p.2 := congrArg Prod.snd he'
    fin_cases hd <;> omega
  · rw [if_neg hg] at he; cases he

theorem inGrid_of_mem_neighbours {g : Grid} {p n : Position}
    (h : n ∈ neighbours g p) : inGrid g n = true := by
  simp only [neighbours, List.mem_filterMap] at h
  obtain ⟨d, _, he⟩ := h
  by_cases hg : inGrid g (p.1 + d.1, p.2 + d.2) = true
  · rw [if_pos hg] at he
    rw [← Option.some.inj he]
    exact hg
  · rw [if_neg hg] at he; cases he

theorem mem_cellsList {g : Grid} {p : Position} :
    p ∈ cellsList g ↔ inGrid g p = true := by
  constructor
  · intro hmem
    rw [cellsList, List.mem_flatMap] at hmem
    obtain ⟨x, hx, hmap⟩ := hmem
    rw [List.mem_map] at hmap
    obtain ⟨y, hy, he⟩ := hmap
    rw [List.mem_range] at hx hy
    have h1 : Int.ofNat x = p.1 := congrArg Prod.fst he
    have h2 : Int.ofNat y = p.2 := congrArg Prod.snd he
    simp only [Int.ofNat_eq_coe] at h1 h2
    simp only [inGrid, Bool.and_eq_true, decide_eq_true_eq]
    omega
  · intro h
    simp only [inGrid, Bool.and_eq_true, decide_eq_true_eq] at h
    rw [cellsList, List.mem_flatMap]
    refine ⟨p.1.toNat, by rw [List.mem_range]; omega, ?_⟩
    rw [List.mem_map]
    refine ⟨p.2.toNat, by rw [List.mem_range]; omega, ?_⟩
    obtain ⟨a, b⟩ := p
    simp only [Prod.mk.injEq]
    constructor
    · simp only [Int.ofNat_eq_coe]; omega
    · simp only [Int.ofNat_eq_coe]; omega

theorem length_flatMap_const {α β : Type} (l : List α) (f : α → List β) (k : Nat)
    (h : ∀ a ∈ l, (f a).length = k) : (l.flatMap f).length = l.length * k := by
  induction l with
  | nil => simp
  | cons a as ih =>
    simp only [List.flatMap_cons, List.length_append, List.length_cons]
    rw [h a (by simp), ih (fun a ha => h a (by simp [ha]))]
    ring

theorem cellsList_length (g : Grid) :
    (cellsList g).length = g.width * g.height := by
  rw [cellsList, length_flatMap_const _ _ g.height
    (fun a _ => by rw [List.length_map, List.length_range]), List.length_range]

theorem mineCnt_eq_zero {g : Grid} {p : Position} (h : mineCnt g p = 0) :
    ∀ n ∈ neighbours g p, g.mines n = false := by
  intro n hn
  have := List.countP_eq_zero.mp h n hn
  simpa using this

/-! ### Monotone evolution of the state along one reveal call -/


theorem stepRel_refl (s : MState) : StepRel s s :=
  ⟨fun _ h => h, fun _ h => h, fun _ => rfl, fun _ _ => rfl, fun _ => rfl, rfl⟩

theorem stepRel_trans {s1 s2 s3 : MState}
    (h12 : StepRel s1 s2) (h23 : StepRel s2 s3) : StepRel s1 s3 := by
  obtain ⟨r12, a12, f12, p12, v12, c12⟩ := h12
  obtain ⟨r23, a23, f23, p23, v23, c23⟩ := h23
  refine ⟨fun q h => r23 q (r12 q h), fun q h => a23 q (a12 q h),
    fun q => (f23 q).trans (f12 q), ?_, ?_, c23.trans c12⟩
  · intro q hq
    have h2 : s2.is_flagged q = true := (f12 q).trans hq
    exact (p23 q h2).trans (p12 q hq)
  · intro q
    have h1 := v12 q
    have h2 := v23 q
    omega

theorem stepRel_bumpVisit (s : MState) (p : Position) :
    StepRel s (bumpVisit s p) :=
  ⟨fun _ h => h, fun _ h => h, fun _ => rfl, fun _ _ => rfl, fun _ => rfl, rfl⟩

theorem stepRel_setAuto (s : MState) (p : Position) :
    StepRel s (setAuto (bumpVisit s p) p) := by
  refine ⟨fun _ h => h, ?_, fun _ => rfl, fun _ _ => rfl, fun _ => rfl, rfl⟩
  intro q h
  simp only [setAuto, bumpVisit, updB]
  split <;> simp [h]

theorem stepRel_reveal (s : MState) (p : Position) (v : String)
    (hfl : s.is_flagged p = false) (hrev : s.is_revealed p = false) :
    StepRel s (setSymbol (setRevealed (bumpVisit s p) p) p v) := by
  refine ⟨?_, fun _ h => h, fun _ => rfl, ?_, ?_, rfl⟩
  · intro q h
    simp only [setSymbol, setRevealed, bumpVisit, updB]
    split <;> simp [h]
  · intro q hq
    have : q ≠ p := fun he => by rw [he, hfl] at hq; exact absurd hq (by simp)
    simp [setSymbol, setRevealed, bumpVisit, updB, this]
  · intro q
    by_cases hq : q = p
    · subst hq
      simp [setSymbol, setRevealed, bumpVisit, updB, updN, hrev]
    · simp [setSymbol, setRevealed, bumpVisit, updB, updN, hq]

theorem runList_rel {f : MState → Position → Option MState}
    {guard : MState → Position → Bool} {l : List Position}
    (hf : ∀ s n s', n ∈ l → f s n = some s' → StepRel s s') :
    ∀ st st', runList f guard st l = some st' → StepRel st st' := by
  induction l with
  | nil => intro st st' h; cases h; exact stepRel_refl _
  | cons m ms ih =>
    intro st st' h
    rw [runList] at h
    split at h
    · cases hm : f st m with
      | none => rw [hm] at h; cases h
      | some s2 =>
        rw [hm] at h
        exact stepRel_trans (hf st m s2 (by simp) hm)
          (ih (fun s n s' hn => hf s n s' (by simp [hn])) s2 st' h)
    · exact ih (fun s n s' hn => hf s n s' (by simp [hn])) st st' h

/-! ### Projection lemmas for the state updaters -/

@[simp] theorem updB_self (f : Position → Bool) (p : Position) (v : Bool) :
    updB f p v p = v := by simp [updB]

theorem updB_ne (f : Position → Bool) {p q : Position} (v : Bool)
    (h : q ≠ p) : updB f p v q = f q := by simp [updB, h]

@[simp] theorem updN_self (f : Position → Nat) (p : Position) :
    updN f p p = f p + 1 := by simp [updN]

theorem updN_ne (f : Position → Nat) {p q : Position} (h : q ≠ p) :
    updN f p q = f q := by simp [updN, h]

@[simp] theorem bumpVisit_is_revealed (st : MState) (p : Position) :
    (bumpVisit st p).is_revealed = st.is_revealed := rfl
@[simp] theorem bumpVisit_is_flagged (st : MState) (p : Position) :
    (bumpVisit st p).is_flagged = st.is_flagged := rfl
@[simp] theorem bumpVisit_auto (st : MState) (p : Position) :
    (bumpVisit st p).clicked_auto_reveal = st.clicked_auto_reveal := rfl
@[simp] theorem bumpVisit_symbol (st : MState) (p : Position) :
    (bumpVisit st p).symbol = st.symbol := rfl
@[simp] theorem bumpVisit_cursor (st : MState) (p : Position) :
    (bumpVisit st p).cursor_position = st.cursor_position := rfl
@[simp] theorem bumpVisit_revs (st : MState) (p : Position) :
    (bumpVisit st p).revs = st.revs := rfl

@[simp] theorem setAuto_is_revealed (st : MState) (p : Position) :
    (setAuto st p).is_revealed = st.is_revealed := rfl
@[simp] theorem setAuto_is_flagged (st : MState) (p : Position) :
    (setAuto st p).is_flagged = st.is_flagged := rfl
@[simp] theorem setAuto_auto (st : MState) (p : Position) :
    (setAuto st p).clicked_auto_reveal = updB st.clicked_auto_reveal p true := rfl
@[simp] theorem setAuto_symbol (st : MState) (p : Position) :
    (setAuto st p).symbol = st.symbol := rfl
@[simp] theorem setAuto_cursor (st : MState) (p : Position) :
    (setAuto st p).cursor_position = st.cursor_position := rfl
@[simp] theorem setAuto_revs (st : MState) (p : Position) :
    (setAuto st p).revs = st.revs := rfl

@[simp] theorem setRevealed_is_revealed (st : MState) (p : Position) :
    (setRevealed st p).is_revealed = updB st.is_revealed p true := rfl
@[simp] theorem setRevealed_is_flagged (st : MState) (p : Position) :
    (setRevealed st p).is_flagged = st.is_flagged := rfl
@[simp] theorem setRevealed_auto (st : MState) (p : Position) :
    (setRevealed st p).clicked_auto_reveal = st.clicked_auto_reveal := rfl
@[simp] theorem setRevealed_symbol (st : MState) (p : Position) :
    (setRevealed st p).symbol = st.symbol := rfl
@[simp] theorem setRevealed_cursor (st : MState) (p : Position) :
    (setRevealed st p).cursor_position = st.cursor_position := rfl
@[simp] theorem setRevealed_revs (st : MState) (p : Position) :
    (setRevealed st p).revs = updN st.revs p := rfl

@[simp] theorem setSymbol_is_revealed (st : MState) (p : Position) (v : String) :
    (setSymbol st p v).is_revealed = st.is_revealed := rfl
@[simp] theorem setSymbol_is_flagged (st : MState) (p : Position) (v : String) :
    (setSymbol st p v).is_flagged = st.is_flagged := rfl
@[simp] theorem setSymbol_auto (st : MState) (p : Position) (v : String) :
    (setSymbol st p v).clicked_auto_reveal = st.clicked_auto_reveal := rfl
@[simp] theorem setSymbol_symbol (st : MState) (p : Position) (v : String) :
    (setSymbol st p v).symbol = updS st.symbol p v := rfl
@[simp] theorem setSymbol_cursor (st : MState) (p : Position) (v : String) :
    (setSymbol st p v).cursor_position = st.cursor_position := rfl
@[simp] theorem setSymbol_revs (st : MState) (p : Position) (v : String) :
    (setSymbol st p v).revs = st.revs := rfl

/-! ### The monotone-evolution lemma for `revealGo` -/

theorem stepRel_go (g : Grid) :
    ∀ fuel st p st', revealGo g fuel st p = some st' → StepRel st st' := by
  intro fuel
  induction fuel with
  | zero => intro st p st' h; simp [revealGo] at h
  | succ f ih =>
    intro st p st' h
    simp only [revealGo] at h
    split at h
    · cases h; exact stepRel_refl _
    · next hfl =>
      have hfl' : st.is_flagged p = false := by
        revert hfl; cases st.is_flagged p <;> simp
      split at h
      · split at h
        · exact stepRel_trans (stepRel_setAuto st p)
            (runList_rel (fun s n s' _ hsn => ih s n s' hsn) _ _ h)
        · cases h; exact stepRel_bumpVisit st p
      · next hrev =>
        have hrev' : st.is_revealed p = false := by
          revert hrev; simp only [bumpVisit_is_revealed]
          cases st.is_revealed p <;> simp
        split at h
        · cases h; exact stepRel_reveal st p _ hfl' hrev'
        · split at h
          · exact stepRel_trans (stepRel_reveal st p _ hfl' hrev')
              (runList_rel (fun s n s' _ hsn => ih s n s' hsn) _ _ h)
          · cases h; exact stepRel_reveal st p _ hfl' hrev'

/-- A successful `reveal` call leaves its own (unflagged) target revealed. -/
theorem revealGo_target (g : Grid) (fuel : Nat) (st : MState) (p : Position)
    (st' : MState) (hfl : st.is_flagged p = false)
    (h : revealGo g fuel st p = some st') : st'.is_revealed p = true := by
  cases fuel with
  | zero => simp [revealGo] at h
  | succ f =>
    simp only [revealGo, hfl, Bool.false_eq_true, if_false] at h
    split at h
    · next hrev =>
      have hrev' : st.is_revealed p = true := by
        simpa using hrev
      split at h
      · have hmono := runList_rel
          (fun s n s' _ hsn => stepRel_go g f s n s' hsn) _ _ h
        exact hmono.1 p (by simpa using hrev')
      · cases h; simpa using hrev'
    · split at h
      · cases h; simp
      · split at h
        · have hmono := runList_rel
            (fun s n s' _ hsn => stepRel_go g f s n s' hsn) _ _ h
          exact hmono.1 p (by simp)
        · cases h; simp

/-! ### Termination: the measure that shrinks on every productive call -/


theorem countP_lt_of_mem {α : Type} {l : List α} {a : α} {p q : α → Bool}
    (ha : a ∈ l) (hpa : p a = true) (hqa : q a = false)
    (h : ∀ x ∈ l, q x = true → p x = true) : l.countP q < l.countP p := by
  induction l with
  | nil => cases ha
  | cons b bs ih =>
    rw [List.countP_cons, List.countP_cons]
    rcases List.mem_cons.mp ha with rfl | hmem
    · have hle : bs.countP q ≤ bs.countP p :=
        List.countP_mono_left (fun x hx => h x (by simp [hx]))
      simp only [hpa, hqa, Bool.false_eq_true, if_false, if_true,
        eq_self_iff_true]
      omega
    · have hstrict := ih hmem (fun x hx => h x (by simp [hx]))
      by_cases hqb : q b = true
      · have hpb := h b (by simp) hqb
        simp only [hpb, hqb, if_true, eq_self_iff_true]
        omega
      · have hqb' : q b = false := by revert hqb; cases q b <;> simp
        simp only [hqb', Bool.false_eq_true, if_false]
        by_cases hpb : p b = true
        · simp only [hpb, if_true, eq_self_iff_true]; omega
        · have hpb' : p b = false := by revert hpb; cases p b <;> simp
          simp only [hpb', Bool.false_eq_true, if_false]; omega

theorem mu_le (g : Grid) (st : MState) :
    mu g st ≤ 2 * (g.width * g.height) := by
  have h1 : (cellsList g).countP (fun p => !st.is_revealed p) ≤
      (cellsList g).length := List.countP_le_length _
  have h2 : (cellsList g).countP (fun p => !st.clicked_auto_reveal p) ≤
      (cellsList g).length := List.countP_le_length _
  rw [cellsList_length] at h1 h2
  unfold mu
  omega

theorem mu_mono {g : Grid} {s s' : MState} (h : StepRel s s') :
    mu g s' ≤ mu g s := by
  unfold mu
  have h1 : (cellsList g).countP (fun p => !s'.is_revealed p) ≤
      (cellsList g).countP (fun p => !s.is_revealed p) := by
    apply List.countP_mono_left
    intro x _ hx
    simp only [Bool.not_eq_true'] at hx ⊢
    cases hrev : s.is_revealed x
    · rfl
    · rw [h.1 x hrev] at hx; cases hx
  have h2 : (cellsList g).countP (fun p => !s'.clicked_auto_reveal p) ≤
      (cellsList g).countP (fun p => !s.clicked_auto_reveal p) := by
    apply List.countP_mono_left
    intro x _ hx
    simp only [Bool.not_eq_true'] at hx ⊢
    cases hauto : s.clicked_auto_reveal x
    · rfl
    · rw [h.2.1 x hauto] at hx; cases hx
  omega

theorem mu_chord_lt {g : Grid} {st : MState} {p : Position}
    (hp : inGrid g p = true) (hauto : st.clicked_auto_reveal p = false) :
    mu g (setAuto (bumpVisit st p) p) < mu g st := by
  unfold mu
  simp only [setAuto_is_revealed, bumpVisit_is_revealed, setAuto_auto,
    bumpVisit_auto]
  have hlt : (cellsList g).countP (fun q => !updB st.clicked_auto_reveal p true q) <
      (cellsList g).countP (fun q => !st.clicked_auto_reveal q) := by
    apply countP_lt_of_mem (mem_cellsList.mpr hp)
    · simp [hauto]
    · simp
    · intro x _ hx
      simp only [Bool.not_eq_true'] at hx ⊢
      by_cases hxp : x = p
      · subst hxp; simp at hx
      · rwa [updB_ne _ _ hxp] at hx
  omega

theorem mu_reveal_lt {g : Grid} {st : MState} {p : Position} {v : String}
    (hp : inGrid g p = true) (hrev : st.is_revealed p = false) :
    mu g (setSymbol (setRevealed (bumpVisit st p) p) p v) < mu g st := by
  unfold mu
  simp only [setSymbol_is_revealed, setRevealed_is_revealed,
    bumpVisit_is_revealed, setSymbol_auto, setRevealed_auto, bumpVisit_auto]
  have hlt : (cellsList g).countP (fun q => !updB st.is_revealed p true q) <
      (cellsList g).countP (fun q => !st.is_revealed q) := by
    apply countP_lt_of_mem (mem_cellsList.mpr hp)
    · simp [hrev]
    · simp
    · intro x _ hx
      simp only [Bool.not_eq_true'] at hx ⊢
      by_cases hxp : x = p
      · subst hxp; simp at hx
      · rwa [updB_ne _ _ hxp] at hx
  omega

theorem runList_isSome (g : Grid) (f : MState → Position → Option MState)
    (guard : MState → Position → Bool) (B : Nat) :
    ∀ (l : List Position),
      (∀ s n, n ∈ l → mu g s ≤ B → (f s n).isSome = true) →
      (∀ s n s', f s n = some s' → mu g s' ≤ mu g s) →
      ∀ st, mu g st ≤ B → (runList f guard st l).isSome = true := by
  intro l
  induction l with
  | nil => intro _ _ st _; simp [runList]
  | cons m ms ih =>
    intro hsome hdec st hst
    rw [runList]
    split
    · have h1 := hsome st m (by simp) hst
      cases hm : f st m with
      | none => rw [hm] at h1; simp at h1
      | some s2 =>
        exact ih (fun s n hn => hsome s n (by simp [hn])) hdec s2
          (le_trans (hdec st m s2 hm) hst)
    · exact ih (fun s n hn => hsome s n (by simp [hn])) hdec st hst

/-- With fuel exceeding the measure, `revealGo` completes. -/
theorem revealGo_isSome (g : Grid) :
    ∀ fuel st p, inGrid g p = true → mu g st < fuel →
      (revealGo g fuel st p).isSome = true := by
  intro fuel
  induction fuel with
  | zero => intro st p _ h; omega
  | succ f ih =>
    intro st p hp hmu
    simp only [revealGo]
    split
    · simp
    · split
      · split
        · next hrev hcond =>
          have hauto : st.clicked_auto_reveal p = false := by
            simpa using hcond.2
          have hlt := @mu_chord_lt g st p hp hauto
          apply runList_isSome g _ _ (mu g (setAuto (bumpVisit st p) p))
          · intro s n hn hs
            exact ih s n (inGrid_of_mem_neighbours hn) (by omega)
          · intro s n s' hsn
            exact mu_mono (stepRel_go g f s n s' hsn)
          · exact le_refl _
        · simp
      · split
        · simp
        · next hrev hmine =>
          have hrev' : st.is_revealed p = false := by
            revert hrev; simp only [bumpVisit_is_revealed]
            cases st.is_revealed p <;> simp
          split
          · have hlt := @mu_reveal_lt g st p
              (if 0 < mineCnt g p then Nat.repr (mineCnt g p) else symEMPTY)
              hp hrev'
            apply runList_isSome g _ _
              (mu g (setSymbol (setRevealed (bumpVisit st p) p) p
                (if 0 < mineCnt g p then Nat.repr (mineCnt g p) else symEMPTY)))
            · intro s n hn hs
              exact ih s n (inGrid_of_mem_neighbours hn) (by omega)
            · intro s n s' hsn
              exact mu_mono (stepRel_go g f s n s' hsn)
            · exact le_refl _
          · simp

/-! ### Zero-closedness: the invariant behind flood coverage -/


theorem zc_runList (g : Grid) (f0 : Nat) (p : Position)
    (hgo : ∀ st q st' E, revealGo g f0 st q = some st' → zc g E st → zc g E st')
    (guard : MState → Position → Bool)
    (hguard : ∀ s n, guard s n = false → n = p ∨ s.is_flagged n = true) :
    ∀ (l : List Position) (E : Position → Position → Prop) (st st' : MState),
      runList (revealGo g f0) guard st l = some st' →
      zc g (fun a b => E a b ∨ (a = p ∧ b ∈ l)) st → zc g E st' := by
  intro l
  induction l with
  | nil =>
    intro E st st' h hz
    cases h
    intro a ha hma h0 b hb hbf
    rcases hz a ha hma h0 b hb hbf with h1 | h2 | h3
    · exact Or.inl h1
    · exact Or.inr h2
    · exact absurd h3.2 (List.not_mem_nil b)
  | cons m ms ih =>
    intro E st st' h hz
    rw [runList] at h
    split at h
    · cases hm : revealGo g f0 st m with
      | none => rw [hm] at h; cases h
      | some s2 =>
        rw [hm] at h
        have hz2 : zc g (fun a b => E a b ∨ (a = p ∧ b ∈ m :: ms)) s2 :=
          hgo st m s2 _ hm hz
        have hz3 : zc g (fun a b => E a b ∨ (a = p ∧ b ∈ ms)) s2 := by
          intro a ha hma h0 b hb hbf
          rcases hz2 a ha hma h0 b hb hbf with h1 | h2 | ⟨hap, hbm⟩
          · exact Or.inl h1
          · exact Or.inr (Or.inl h2)
          · rcases List.mem_cons.mp hbm with rfl | hbms
            · have hflc := (stepRel_go g f0 st b s2 hm).2.2.1 b
              have hbf' : st.is_flagged b = false := by rw [← hflc]; exact hbf
              exact Or.inl (revealGo_target g f0 st b s2 hbf' hm)
            · exact Or.inr (Or.inr ⟨hap, hbms⟩)
        exact ih E s2 st' h hz3
    · next hg =>
      have hgm : m = p ∨ st.is_flagged m = true :=
        hguard st m (by revert hg; cases guard st m <;> simp)
      have hz3 : zc g (fun a b => E a b ∨ (a = p ∧ b ∈ ms)) st := by
        intro a ha hma h0 b hb hbf
        rcases hz a ha hma h0 b hb hbf with h1 | h2 | ⟨hap, hbm⟩
        · exact Or.inl h1
        · exact Or.inr (Or.inl h2)
        · rcases List.mem_cons.mp hbm with rfl | hbms
          · rcases hgm with rfl | hfl
            · subst hap; exact absurd hb (not_mem_neighbours_self g a)
            · rw [hfl] at hbf; cases hbf
          · exact Or.inr (Or.inr ⟨hap, hbms⟩)
      exact ih E st st' h hz3

/-- A reveal call preserves zero-closedness (for any exception relation). -/
theorem zc_go (g : Grid) :
    ∀ fuel st p st' E, revealGo g fuel st p = some st' →
      zc g E st → zc g E st' := by
  intro fuel
  induction fuel with
  | zero => intro st p st' E h _; simp [revealGo] at h
  | succ f ih =>
    intro st p st' E h hz
    simp only [revealGo] at h
    split at h
    · cases h; exact hz
    · next hfl =>
      have hfl' : st.is_flagged p = false := by
        revert hfl; cases st.is_flagged p <;> simp
      split at h
      · split at h
        · -- chord branch
          have hzmid : zc g (fun a b => E a b ∨ (a = p ∧ b ∈ neighbours g p))
              (setAuto (bumpVisit st p) p) := by
            intro a ha hma h0 b hb hbf
            rcases hz a ha hma h0 b hb hbf with h1 | h2
            · exact Or.inl h1
            · exact Or.inr (Or.inl h2)
          refine zc_runList g f p (fun st q st' E h hzz => ih st q st' E h hzz)
            _ ?_ (neighbours g p) E _ st' h hzmid
          intro s n hgn
          by_cases hnp : n = p
          · exact Or.inl hnp
          · right
            revert hgn
            have : ([p].contains n) = false := by
              simp [List.contains_cons, hnp]
            rw [this]
            cases s.is_flagged n <;> simp
        · cases h
          exact fun a ha hma h0 b hb hbf => hz a ha hma h0 b hb hbf
      · next hrev =>
        split at h
        · next hmine =>
          cases h
          intro a ha hma h0 b hb hbf
          by_cases hap : a = p
          · subst hap; rw [hmine] at hma; cases hma
          · have ha' : st.is_revealed a = true := by
              simpa [updB_ne _ _ hap] using ha
            rcases hz a ha' hma h0 b hb hbf with h1 | h2
            · left
              by_cases hbp : b = p
              · subst hbp; simp
              · simpa [updB_ne _ _ hbp] using h1
            · exact Or.inr h2
        · split at h
          · -- zero-count flood branch
            have hz3 : zc g (fun a b => E a b ∨ (a = p ∧ b ∈ neighbours g p))
                (setSymbol (setRevealed (bumpVisit st p) p) p
                  (if 0 < mineCnt g p then Nat.repr (mineCnt g p)
                   else symEMPTY)) := by
              intro a ha hma h0 b hb hbf
              by_cases hap : a = p
              · subst hap; exact Or.inr (Or.inr ⟨rfl, hb⟩)
              · have ha' : st.is_revealed a = true := by
                  simpa [updB_ne _ _ hap] using ha
                rcases hz a ha' hma h0 b hb hbf with h1 | h2
                · left
                  by_cases hbp : b = p
                  · subst hbp; simp
                  · simpa [updB_ne _ _ hbp] using h1
                · exact Or.inr (Or.inl h2)
            refine zc_runList g f p (fun st q st' E h hzz => ih st q st' E h hzz)
              _ ?_ (neighbours g p) E _ st' h hz3
            intro s n hgn
            left
            revert hgn
            by_cases hnp : n = p
            · intro _; exact hnp
            · have : ([p].contains n) = false := by
                simp [List.contains_cons, hnp]
              rw [this]
              simp
          · next hmc =>
            cases h
            intro a ha hma h0 b hb hbf
            by_cases hap : a = p
            · subst hap; exact absurd h0 hmc
            · have ha' : st.is_revealed a = true := by
                simpa [updB_ne _ _ hap] using ha
              rcases hz a ha' hma h0 b hb hbf with h1 | h2
              · left
                by_cases hbp : b = p
                · subst hbp; simp
                · simpa [updB_ne _ _ hbp] using h1
              · exact Or.inr h2

/-! ### Helper lemmas about flagging, counting and the reveal loops -/

@[simp] theorem setFlagSym_is_revealed (st : MState) (p : Position) (v : Bool)
    (s : String) : (setFlagSym st p v s).is_revealed = st.is_revealed := rfl
@[simp] theorem setFlagSym_is_flagged (st : MState) (p : Position) (v : Bool)
    (s : String) : (setFlagSym st p v s).is_flagged = updB st.is_flagged p v := rfl
@[simp] theorem setFlagSym_auto (st : MState) (p : Position) (v : Bool)
    (s : String) :
    (setFlagSym st p v s).clicked_auto_reveal = st.clicked_auto_reveal := rfl
@[simp] theorem setFlagSym_cursor (st : MState) (p : Position) (v : Bool)
    (s : String) : (setFlagSym st p v s).cursor_position = st.cursor_position := rfl

@[simp] theorem flagCell_is_revealed (st : MState) (p : Position) :
    (flagCell st p).is_revealed = st.is_revealed := by
  unfold flagCell
  split
  · rfl
  · split <;> rfl

@[simp] theorem flagCell_auto (st : MState) (p : Position) :
    (flagCell st p).clicked_auto_reveal = st.clicked_auto_reveal := by
  unfold flagCell
  split
  · rfl
  · split <;> rfl

@[simp] theorem move_cursor_is_revealed (g : Grid) (st : MState) (dx dy : Int) :
    (move_cursor g st dx dy).is_revealed = st.is_revealed := rfl
@[simp] theorem move_cursor_is_flagged (g : Grid) (st : MState) (dx dy : Int) :
    (move_cursor g st dx dy).is_flagged = st.is_flagged := rfl

theorem flagCnt_bumpVisit (g : Grid) (st : MState) (p q : Position) :
    flagCnt g (bumpVisit st p) q = flagCnt g st q := rfl

theorem flagCnt_eq_zero_of_flagfree {g : Grid} {st : MState}
    (hff : ∀ q, st.is_flagged q = false) (p : Position) :
    flagCnt g st p = 0 := by
  unfold flagCnt
  apply List.countP_eq_zero.mpr
  intro n _
  simp [hff n]

/-- Running `reveal` over a list of targets reveals each unflagged listed cell,
provided the guard always lets unflagged cells through. -/
theorem runList_reveals (g : Grid) (f0 : Nat)
    (guard : MState → Position → Bool) :
    ∀ (l : List Position),
      (∀ s n, n ∈ l → s.is_flagged n = false → guard s n = true) →
      ∀ st st', runList (revealGo g f0) guard st l = some st' →
        ∀ n ∈ l, st.is_flagged n = false → st'.is_revealed n = true := by
  intro l
  induction l with
  | nil => intro _ st st' h n hn; cases hn
  | cons m ms ih =>
    intro hguard st st' h n hn hnf
    rw [runList] at h
    rcases List.mem_cons.mp hn with rfl | hns
    · rw [if_pos (hguard st n (by simp) hnf)] at h
      cases hm : revealGo g f0 st n with
      | none => rw [hm] at h; cases h
      | some s2 =>
        rw [hm] at h
        have h1 := revealGo_target g f0 st n s2 hnf hm
        have hmono := runList_rel
          (fun s q s' _ hq => stepRel_go g f0 s q s' hq) s2 st' h
        exact hmono.1 n h1
    · split at h
      · cases hm : revealGo g f0 st m with
        | none => rw [hm] at h; cases h
        | some s2 =>
          rw [hm] at h
          have hflc := (stepRel_go g f0 st m s2 hm).2.2.1 n
          exact ih (fun s q hq hf => hguard s q (by simp [hq]) hf) s2 st' h
            n hns (by rw [hflc]; exact hnf)
      · exact ih (fun s q hq hf => hguard s q (by simp [hq]) hf) st st' h
          n hns hnf

/-- Folding `reveal` over non-mine targets in a flag-free state never changes
any mine cell's `is_revealed`. -/
theorem runList_mines (g : Grid) (f0 : Nat)
    (hgo : ∀ s q s', (∀ r, s.is_flagged r = false) → g.mines q = false →
        revealGo g f0 s q = some s' →
        ∀ r, g.mines r = true → s'.is_revealed r = s.is_revealed r)
    (guard : MState → Position → Bool) :
    ∀ (l : List Position) (st st' : MState), (∀ r, st.is_flagged r = false) →
      (∀ n ∈ l, g.mines n = false) →
      runList (revealGo g f0) guard st l = some st' →
      ∀ r, g.mines r = true → st'.is_revealed r = st.is_revealed r := by
  intro l
  induction l with
  | nil => intro st st' _ _ h r hr; cases h; rfl
  | cons m ms ih =>
    intro st st' hff hl h r hr
    rw [runList] at h
    split at h
    · cases hm : revealGo g f0 st m with
      | none => rw [hm] at h; cases h
      | some s2 =>
        rw [hm] at h
        have h1 := hgo st m s2 hff (hl m (by simp)) hm
        have hff2 : ∀ q2, s2.is_flagged q2 = false := by
          intro q2
          rw [(stepRel_go g f0 st m s2 hm).2.2.1 q2]
          exact hff q2
        rw [ih s2 st' hff2 (fun n hn => hl n (by simp [hn])) h r hr]
        exact h1 r hr
    · exact ih st st' hff (fun n hn => hl n (by simp [hn])) h r hr

/-! ### Claim theorems -/

/-- C3: `all_cells_revealed_except_mines` returns `true` iff every in-grid
cell with `is_mine = false` has `is_revealed = true`; in particular it is
`false` whenever some non-mine cell is hidden, whatever the mines' states. -/
theorem all_cells_revealed_except_mines_iff (g : Grid) (st : MState) :
    all_cells_revealed_except_mines g st = true ↔
      ∀ p, inGrid g p = true → g.mines p = false → st.is_revealed p = true := by
  unfold all_cells_revealed_except_mines
  rw [List.all_eq_true]
  constructor
  · intro h p hp hm
    have h2 := h p (mem_cellsList.mpr hp)
    rw [hm] at h2
    simpa using h2
  · intro h p hp
    by_cases hm : g.mines p = true
    · simp [hm]
    · have hm' : g.mines p = false := by revert hm; cases g.mines p <;> simp
      simp [h p (mem_cellsList.mp hp) hm']

/-- C7: revealing a flagged cell is a no-op that returns the state unchanged,
and no reveal walk ever changes a flagged cell's `is_revealed` (the flood
stops at flags). -/
theorem reveal_flagged_cell_noop (g : Grid) (fuel : Nat) (st : MState)
    (p q : Position) (st' : MState) :
    (st.is_flagged p = true → revealGo g (fuel + 1) st p = some st) ∧
    (revealGo g fuel st p = some st' → st.is_flagged q = true →
      st'.is_revealed q = st.is_revealed q ∧ st'.is_flagged q = true) := by
  constructor
  · intro hfl
    simp [revealGo, hfl]
  · intro h hq
    have hrel := stepRel_go g fuel st p st' h
    exact ⟨hrel.2.2.2.1 q hq, by rw [hrel.2.2.1 q]; exact hq⟩

/-- C7 witness: the flagged 1 x 1 cell rejects reveal outright, and the
flagged middle cell of the 1 x 3 board is untouched by a reveal at (0,0). -/
theorem reveal_flagged_cell_noop_witness :
    revealGo g1 5 stF1 ((0 : Int), (0 : Int)) = some stF1 ∧
    ((revealGo g13 13 stF13 ((0 : Int), (0 : Int))).getD stF13).is_revealed
      ((0 : Int), (1 : Int)) = stF13.is_revealed ((0 : Int), (1 : Int)) := by
  constructor
  · exact (reveal_flagged_cell_noop g1 4 stF1 (0, 0) (0, 0) stF1).1 (by rfl)
  · have h : revealGo g13 13 stF13 ((0 : Int), (0 : Int)) =
        some ((revealGo g13 13 stF13 ((0 : Int), (0 : Int))).getD stF13) := rfl
    exact ((reveal_flagged_cell_noop g13 13 stF13 (0, 0)
      ((0 : Int), (1 : Int)) _).2 h (by rfl)).1

/-- C9: out-of-bounds coordinates are not uniformly rejected: `(-1, 0)` on the
2 x 1 board is out of bounds, yet `Minefield.reveal`/`flag` there wrap around
(numpy negative indexing) and mutate the in-bounds cell `(1, 0)`; only
coordinates at or beyond the width/height raise `IndexError`. -/
theorem oob_negative_index_wraps :
    inGrid g21 ((-1 : Int), (0 : Int)) = false ∧
    (mfReveal g21 (initState (0, 0)) ((-1 : Int), (0 : Int))).map
      (fun s => s.is_revealed ((1 : Int), (0 : Int))) = some true ∧
    (mfFlag g21 (initState (0, 0)) ((-1 : Int), (0 : Int))).map
      (fun s => s.is_flagged ((1 : Int), (0 : Int))) = some true ∧
    (mfReveal g21 (initState (0, 0)) ((5 : Int), (0 : Int))).isSome = false := by
  refine ⟨by decide, by decide, by decide, by decide⟩

/-- C5 (amended): every reveal call on an in-grid cell completes once the
allowed recursion depth (fuel) exceeds twice the number of grid cells; the
productive steps are bounded because `is_revealed` and `clicked_auto_reveal`
each flip at most once per cell. -/
theorem reveal_terminates_with_fuel (g : Grid) (st : MState) (p : Position)
    (fuel : Nat) (hp : inGrid g p = true)
    (hfuel : 2 * (g.width * g.height) < fuel) :
    (revealGo g fuel st p).isSome = true := by
  apply revealGo_isSome g fuel st p hp
  have := mu_le g st
  omega

/-- C5 witness: depth allowance 5 completes the reveal on the 1 x 2 board. -/
theorem reveal_terminates_with_fuel_witness :
    (revealGo g12 5 (initState (0, 0)) ((0 : Int), (0 : Int))).isSome = true :=
  reveal_terminates_with_fuel g12 (initState (0, 0)) (0, 0) 5 (by decide)
    (by decide)

/-- C5 counterexample: on the 1 x 2 mine-free board (2 cells) the recursion
from (0,0) needs depth 5; allowing depth 2 — or even 3 — cuts the walk off, so
recursion depth is NOT bounded by the number of grid cells (the visited set is
not shared, cells are re-entered). -/
theorem reveal_depth_counterexample :
    (revealGo g12 2 (initState (0, 0)) ((0 : Int), (0 : Int))).isSome = false ∧
    (revealGo g12 3 (initState (0, 0)) ((0 : Int), (0 : Int))).isSome = false ∧
    (revealGo g12 5 (initState (0, 0)) ((0 : Int), (0 : Int))).isSome = true := by
  refine ⟨by decide, by decide, by decide⟩

/-- C10: in a flag-free state, revealing a non-mine cell never reveals any
mine cell: with zero flagged neighbours a chord can only fire on a cell whose
mine-neighbour count is zero, and flood recursion likewise only enters
neighbours of zero-count cells, which are never mines. -/
theorem reveal_nonmine_keeps_mines_hidden (g : Grid) :
    ∀ fuel st p st', (∀ q, st.is_flagged q = false) → g.mines p = false →
      revealGo g fuel st p = some st' →
      ∀ q, g.mines q = true → st'.is_revealed q = st.is_revealed q := by
  intro fuel
  induction fuel with
  | zero => intro st p st' _ _ h; simp [revealGo] at h
  | succ f ih =>
    intro st p st' hff hm h
    simp only [revealGo] at h
    rw [if_neg (by rw [hff p]; simp)] at h
    split at h
    · split at h
      · next hcond =>
        have hmc : mineCnt g p = 0 := by
          rw [hcond.1, flagCnt_bumpVisit, flagCnt_eq_zero_of_flagfree hff]
        intro q hq
        exact runList_mines g f ih _ (neighbours g p)
          (setAuto (bumpVisit st p) p) st' (fun r => hff r)
          (mineCnt_eq_zero hmc) h q hq
      · cases h
        intro q _
        rfl
    · split at h
      · next hmine => rw [hmine] at hm; cases hm
      · split at h
        · next hmc =>
          intro q hq
          have hqp : q ≠ p := fun he => by rw [he, hm] at hq; cases hq
          rw [runList_mines g f ih _ (neighbours g p)
            (setSymbol (setRevealed (bumpVisit st p) p) p
              (if 0 < mineCnt g p then Nat.repr (mineCnt g p) else symEMPTY))
            st' (fun r => hff r) (mineCnt_eq_zero hmc) h q hq]
          simp [updB_ne _ _ hqp]
        · cases h
          intro q hq
          have hqp : q ≠ p := fun he => by rw [he, hm] at hq; cases hq
          simp [updB_ne _ _ hqp]

/-- C10 witness: on the 2 x 2 board with a mine at (1,1), revealing (0,0) in
the fresh state leaves the mine hidden. -/
theorem reveal_nonmine_keeps_mines_hidden_witness :
    ((revealGo g2m 9 (initState (0, 0)) ((0 : Int), (0 : Int))).getD
      (initState (0, 0))).is_revealed ((1 : Int), (1 : Int)) = false := by
  have h : revealGo g2m 9 (initState (0, 0)) ((0 : Int), (0 : Int)) =
      some ((revealGo g2m 9 (initState (0, 0)) ((0 : Int), (0 : Int))).getD
        (initState (0, 0))) := rfl
  rw [reveal_nonmine_keeps_mines_hidden g2m 9 (initState (0, 0)) (0, 0) _
    (fun q => rfl) (by decide) h ((1 : Int), (1 : Int)) (by decide)]
  rfl

/-- C2: a reveal on an already-revealed, unflagged cell whose flagged-neighbour
count equals its mine-neighbour count and whose chord has not fired reveals
every unflagged neighbour; each previously hidden one has its first-reveal
branch run exactly once (ghost counter `revs` goes up by exactly 1); and a
second reveal of the same cell returns a state with all cell fields unchanged
(only the ghost visit counter differs). -/
theorem chord_reveals_unflagged_neighbours (g : Grid) (fuel : Nat)
    (st : MState) (p : Position) (st' : MState)
    (hrev : st.is_revealed p = true) (hfl : st.is_flagged p = false)
    (hauto : st.clicked_auto_reveal p = false)
    (hcnt : mineCnt g p = flagCnt g st p)
    (h : revealGo g fuel st p = some st') :
    (∀ n ∈ neighbours g p, st.is_flagged n = false →
      st'.is_revealed n = true ∧
      (st.is_revealed n = false → st'.revs n = st.revs n + 1)) ∧
    (∀ f2, ∃ st2, revealGo g (f2 + 1) st' p = some st2 ∧
      st2.is_revealed = st'.is_revealed ∧ st2.is_flagged = st'.is_flagged ∧
      st2.clicked_auto_reveal = st'.clicked_auto_reveal ∧
      st2.symbol = st'.symbol ∧ st2.cursor_position = st'.cursor_position) := by
  cases fuel with
  | zero => simp [revealGo] at h
  | succ f =>
    simp only [revealGo] at h
    rw [if_neg (by rw [hfl]; simp)] at h
    rw [if_pos (show (bumpVisit st p).is_revealed p = true by simpa using hrev)]
      at h
    rw [if_pos (show mineCnt g p = flagCnt g (bumpVisit st p) p ∧
        (bumpVisit st p).clicked_auto_reveal p = false from
      ⟨by rw [flagCnt_bumpVisit]; exact hcnt, by simpa using hauto⟩)] at h
    have hmono := runList_rel
      (fun s n s' _ hsn => stepRel_go g f s n s' hsn) _ _ h
    have hrelfull : StepRel st st' := stepRel_trans (stepRel_setAuto st p) hmono
    constructor
    · intro n hn hnf
      have hrevn : st'.is_revealed n = true := by
        refine runList_reveals g f _ (neighbours g p) ?_ _ st' h n hn hnf
        intro s m hm hmf
        have hmp : m ≠ p := fun he => not_mem_neighbours_self g p (he ▸ hm)
        simp [hmf, hmp]
      refine ⟨hrevn, ?_⟩
      intro hnrev
      have hv := hrelfull.2.2.2.2.1 n
      rw [hnrev, hrevn] at hv
      simpa using hv
    · intro f2
      refine ⟨bumpVisit st' p, ?_, rfl, rfl, rfl, rfl, rfl⟩
      have hfl' : st'.is_flagged p = false := by
        rw [hrelfull.2.2.1 p]; exact hfl
      have hrev' : st'.is_revealed p = true := hrelfull.1 p hrev
      have hauto' : st'.clicked_auto_reveal p = true := hmono.2.1 p (by simp)
      simp only [revealGo]
      rw [if_neg (by rw [hfl']; simp)]
      rw [if_pos (show (bumpVisit st' p).is_revealed p = true by
        simpa using hrev')]
      rw [if_neg (show ¬(mineCnt g p = flagCnt g (bumpVisit st' p) p ∧
          (bumpVisit st' p).clicked_auto_reveal p = false) from by
        intro hc
        have hc2 := hc.2
        rw [bumpVisit_auto, hauto'] at hc2
        cases hc2)]

/-- C2 witness: on the 2 x 1 mine-free board with (0,0) already revealed and
nothing flagged, re-targeting (0,0) chords: (1,0) becomes revealed with its
first-reveal branch having run exactly once. -/
theorem chord_reveals_unflagged_neighbours_witness :
    ((revealGo g21 5 stW ((0 : Int), (0 : Int))).getD stW).is_revealed
      ((1 : Int), (0 : Int)) = true ∧
    ((revealGo g21 5 stW ((0 : Int), (0 : Int))).getD stW).revs
      ((1 : Int), (0 : Int)) = stW.revs ((1 : Int), (0 : Int)) + 1 := by
  have h : revealGo g21 5 stW ((0 : Int), (0 : Int)) =
      some ((revealGo g21 5 stW ((0 : Int), (0 : Int))).getD stW) := rfl
  have hc := (chord_reveals_unflagged_neighbours g21 5 stW (0, 0) _
    (by rfl) (by rfl) (by rfl) (by decide) h).1 ((1 : Int), (0 : Int))
    (by decide) (by rfl)
  exact ⟨hc.1, hc.2 (by rfl)⟩

/-- C4 (amended): `reveal_all` runs the full `reveal()` on every cell in grid
order; it reveals exactly the unflagged cells — a flagged cell keeps its
`is_revealed` value and stays flagged. -/
theorem reveal_all_reveals_exactly_unflagged (g : Grid) (st st' : MState)
    (h : reveal_all g st = some st') :
    ∀ p, inGrid g p = true →
      (st.is_flagged p = false → st'.is_revealed p = true) ∧
      (st.is_flagged p = true → st'.is_revealed p = st.is_revealed p ∧
        st'.is_flagged p = true) := by
  intro p hp
  have hrel := runList_rel
    (fun s n s' _ hsn => stepRel_go g (bigFuel g) s n s' hsn) _ _ h
  constructor
  · intro hf
    exact runList_reveals g (bigFuel g) _ (cellsList g)
      (fun _ _ _ _ => rfl) st st' h p (mem_cellsList.mpr hp) hf
  · intro hf
    exact ⟨hrel.2.2.2.1 p hf, by rw [hrel.2.2.1 p]; exact hf⟩

/-- C4 counterexample: `reveal_all` does NOT reveal flagged cells (the flagged
1 x 1 cell stays hidden), and it DOES re-trigger flood/chord logic (on the
fresh 1 x 2 board it leaves a chord fired: `clicked_auto_reveal` set). -/
theorem reveal_all_counterexample :
    (reveal_all g1 stF1).map (fun s => s.is_revealed ((0 : Int), (0 : Int))) =
      some false ∧
    (reveal_all g12 (initState (0, 0))).map
      (fun s => s.clicked_auto_reveal ((0 : Int), (0 : Int))) = some true := by
  refine ⟨by decide, by decide⟩

/-- C4 witness: `reveal_all` on the fresh 1 x 2 board reveals (0,1). -/
theorem reveal_all_reveals_exactly_unflagged_witness :
    ((reveal_all g12 (initState (0, 0))).getD (initState (0, 0))).is_revealed
      ((0 : Int), (1 : Int)) = true := by
  have h : reveal_all g12 (initState (0, 0)) =
      some ((reveal_all g12 (initState (0, 0))).getD (initState (0, 0))) := rfl
  exact ((reveal_all_reveals_exactly_unflagged g12 _ _ h ((0 : Int), (1 : Int))
    (by decide)).1) (by rfl)

/-- C1 (amended): starting from a state that is zero-closed (every revealed
non-mine zero-count cell already has its unflagged neighbours revealed — e.g.
any fresh board), revealing an unflagged non-mine cell reveals every cell
reachable from it through unflagged zero-count cells: its unflagged zero-region
together with the unflagged numbered boundary.  Cells may be processed more
than once on the way, since each recursive call creates a fresh visited set
(see the counterexample). -/
theorem reveal_floods_unflagged_zero_region (g : Grid) (fuel : Nat)
    (st : MState) (p : Position) (st' : MState)
    (hzc : zc g (fun _ _ => False) st)
    (hfl : st.is_flagged p = false) (hm : g.mines p = false)
    (h : revealGo g fuel st p = some st') :
    ∀ q, ZeroReachU g st p q → st'.is_revealed q = true := by
  have hzc' : zc g (fun _ _ => False) st' := zc_go g fuel st p st' _ h hzc
  have hrel := stepRel_go g fuel st p st' h
  intro q hq
  have main : st'.is_revealed q = true ∧ g.mines q = false := by
    induction hq with
    | refl => exact ⟨revealGo_target g fuel st p st' hfl h, hm⟩
    | tail hab hbc ih =>
      obtain ⟨hmc, hmem, hbf⟩ := hbc
      obtain ⟨hareveal, hanm⟩ := ih
      have hbf' := (hrel.2.2.1 _).trans hbf
      rcases hzc' _ hareveal hanm hmc _ hmem hbf' with h1 | h2
      · exact ⟨h1, mineCnt_eq_zero hmc _ hmem⟩
      · cases h2
  exact main.1

/-- C1 witness: on the fresh 2 x 2 mine-free board, revealing (0,0) reveals
(1,1), which lies in its zero-region. -/
theorem reveal_floods_unflagged_zero_region_witness :
    ((revealGo g22 9 (initState (0, 0)) ((0 : Int), (0 : Int))).getD
      (initState (0, 0))).is_revealed ((1 : Int), (1 : Int)) = true := by
  have h : revealGo g22 9 (initState (0, 0)) ((0 : Int), (0 : Int)) =
      some ((revealGo g22 9 (initState (0, 0)) ((0 : Int), (0 : Int))).getD
        (initState (0, 0))) := rfl
  refine reveal_floods_unflagged_zero_region g22 9 (initState (0, 0)) (0, 0) _
    ?_ rfl (by decide) h ((1 : Int), (1 : Int)) ?_
  · intro a ha _ _ b _ _
    simp [initState] at ha
  · exact Relation.ReflTransGen.single ⟨by decide, by decide, by rfl⟩

/-- C1 counterexample, four parts.  (i) On the fresh 1 x 2 mine-free board one
reveal of (0,0) processes (0,0) three times (the ghost visit counter reaches
3): the visited set is NOT shared across the recursive call tree, cells are
not processed at most once.  (ii) On the 1 x 3 mine-free board with (0,1)
flagged, (0,2) lies in the contiguous zero-region of (0,0) but stays
unrevealed (as does the flagged (0,1)).  (iii) On the 2 x 2 board whose only
mine (0,0) has zero mine-neighbours, revealing (0,0) reveals nothing else even
though (0,1) is in its zero-region.  (iv) On the 2 x 3 mine-free board in the
reachable state `st23` ((0,1) revealed with its chord unfired, (1,1) flagged),
revealing (0,0) leaves the unflagged zero-region cell (0,2) hidden: the
cascade relies on chords, and (0,1)'s chord is blocked because its flagged
count (1) differs from its mine count (0). -/
theorem reveal_shared_visited_counterexample :
    (revealGo g12 9 (initState (0, 0)) ((0 : Int), (0 : Int))).map
      (fun s => s.visits ((0 : Int), (0 : Int))) = some 3 ∧
    ZeroReach g13 ((0 : Int), (0 : Int)) ((0 : Int), (2 : Int)) ∧
    (revealGo g13 13 stF13 ((0 : Int), (0 : Int))).map
      (fun s => (s.is_revealed ((0 : Int), (1 : Int)),
                 s.is_revealed ((0 : Int), (2 : Int)))) = some (false, false) ∧
    ZeroReach gM ((0 : Int), (0 : Int)) ((0 : Int), (1 : Int)) ∧
    (revealGo gM 19 (initState (0, 0)) ((0 : Int), (0 : Int))).map
      (fun s => s.is_revealed ((0 : Int), (1 : Int))) = some false ∧
    ZeroReach g23 ((0 : Int), (0 : Int)) ((0 : Int), (2 : Int)) ∧
    st23.is_flagged ((0 : Int), (2 : Int)) = false ∧
    (revealGo g23 13 st23 ((0 : Int), (0 : Int))).map
      (fun s => s.is_revealed ((0 : Int), (2 : Int))) = some false := by
  refine ⟨by decide, ?_, by decide, ?_, by decide, ?_, by decide, by decide⟩
  · have step1 : ZeroReach g13 ((0 : Int), (0 : Int)) ((0 : Int), (1 : Int)) :=
      Relation.ReflTransGen.single ⟨by decide, by decide⟩
    exact Relation.ReflTransGen.tail step1 ⟨by decide, by decide⟩
  · exact Relation.ReflTransGen.single ⟨by decide, by decide⟩
  · have step1 : ZeroReach g23 ((0 : Int), (0 : Int)) ((0 : Int), (1 : Int)) :=
      Relation.ReflTransGen.single ⟨by decide, by decide⟩
    exact Relation.ReflTransGen.tail step1 ⟨by decide, by decide⟩

/-- C6: in every state reachable from construction by game actions no cell is
ever flagged and revealed at the same time, and `is_revealed` is monotone
along every single game action (once true it never reverts). -/
theorem flagged_never_revealed_and_revealed_monotone (g : Grid) (tl : Position)
    (st : MState) :
    (Reachable g tl st →
      ∀ q, ¬(st.is_flagged q = true ∧ st.is_revealed q = true)) ∧
    (∀ s s', GameStep g s s' → ∀ q, s.is_revealed q = true →
      s'.is_revealed q = true) := by
  have hmonostep : ∀ s s', GameStep g s s' → ∀ q, s.is_revealed q = true →
      s'.is_revealed q = true := by
    intro s s' hstep q hq
    cases hstep with
    | reveal p fuel st2' hp h => exact (stepRel_go g fuel _ _ _ h).1 q hq
    | flag p hp => rw [flagCell_is_revealed]; exact hq
    | revealAll st2' h =>
      exact (runList_rel (fun s2 n s2' _ hsn =>
        stepRel_go g (bigFuel g) s2 n s2' hsn) _ _ h).1 q hq
    | move dx dy => exact hq
  refine ⟨?_, hmonostep⟩
  intro hreach
  have hinv : ∀ q, st.is_flagged q = true → st.is_revealed q = false := by
    induction hreach with
    | refl => intro q hq; simp [initState] at hq
    | tail hab hbc ih =>
      intro q hq
      cases hbc with
      | reveal p fuel st2' hp h =>
        have hrel := stepRel_go g fuel _ _ _ h
        rw [hrel.2.2.2.1 q ((hrel.2.2.1 q).symm.trans hq)]
        exact ih q ((hrel.2.2.1 q).symm.trans hq)
      | flag p hp =>
        rw [flagCell_is_revealed]
        unfold flagCell at hq
        split at hq
        · exact ih q hq
        · next hrevp =>
          split at hq
          · rw [setFlagSym_is_flagged] at hq
            by_cases hqp : q = p
            · subst hqp
              rw [updB_self] at hq
              cases hq
            · rw [updB_ne _ _ hqp] at hq
              exact ih q hq
          · rw [setFlagSym_is_flagged] at hq
            by_cases hqp : q = p
            · subst hqp
              simp only [Bool.not_eq_true] at hrevp
              exact hrevp
            · rw [updB_ne _ _ hqp] at hq
              exact ih q hq
      | revealAll st2' h =>
        have hrel := runList_rel (fun s2 n s2' _ hsn =>
          stepRel_go g (bigFuel g) s2 n s2' hsn) _ _ h
        rw [hrel.2.2.2.1 q ((hrel.2.2.1 q).symm.trans hq)]
        exact ih q ((hrel.2.2.1 q).symm.trans hq)
      | move dx dy => exact ih q hq
  intro q hq12
  obtain ⟨h1, h2⟩ := hq12
  rw [hinv q h1] at h2
  cases h2

/-- C6 witness: the state obtained by flagging the 1 x 1 cell is reachable and
satisfies the invariant at that cell; a cursor move keeps a revealed cell
revealed. -/
theorem flagged_never_revealed_witness :
    ¬(stF1.is_flagged ((0 : Int), (0 : Int)) = true ∧
      stF1.is_revealed ((0 : Int), (0 : Int)) = true) ∧
    (move_cursor g1 stAllRev 1 0).is_revealed ((0 : Int), (0 : Int)) = true := by
  constructor
  · exact (flagged_never_revealed_and_revealed_monotone g1 (0, 0) stF1).1
      (Relation.ReflTransGen.single
        (GameStep.flag (initState (0, 0)) ((0 : Int), (0 : Int)) (by decide)))
      ((0 : Int), (0 : Int))
  · exact (flagged_never_revealed_and_revealed_monotone g1 (0, 0) stAllRev).2
      stAllRev _ (GameStep.move stAllRev 1 0) ((0 : Int), (0 : Int)) (by rfl)

/-- C8 (the claim states the required behaviour; the code omits the check):
when more mines are requested than the grid has cells, the rejection-sampling
loop of `__place_mines` never terminates — for every iteration budget and
every stream of in-range samples it is still running — instead of the
configuration being rejected with an error at construction. -/
theorem place_mines_capacity_diverges (g : Grid) (num_mines : Nat)
    (stream : Nat → Position) (hstream : ∀ j, inGrid g (stream j) = true)
    (hcap : g.width * g.height < num_mines) :
    ∀ fuel acc i, acc.Nodup → (∀ p ∈ acc, inGrid g p = true) →
      place_mines_loop num_mines stream fuel acc i = none := by
  intro fuel
  induction fuel with
  | zero => intro acc i _ _; rfl
  | succ f ih =>
    intro acc i hnd haccg
    rw [place_mines_loop]
    rw [if_neg (show ¬(num_mines ≤ acc.length) from ?_)]
    · split
      · exact ih acc (i + 1) hnd haccg
      · next hmemn =>
        apply ih
        · rw [List.nodup_append]
          refine ⟨hnd, List.nodup_singleton _, ?_⟩
          intro a ha hb
          rw [List.mem_singleton.mp hb] at ha
          exact hmemn ha
        · intro p hp
          rcases List.mem_append.mp hp with h1 | h2
          · exact haccg p h1
          · rw [List.mem_singleton.mp h2]
            exact hstream i
    · intro hle
      have hsub : acc ⊆ cellsList g := fun p hp => mem_cellsList.mpr (haccg p hp)
      have hlen := (hnd.subperm hsub).length_le
      rw [cellsList_length] at hlen
      omega

/-- C8 witness: requesting 2 mines on the 1 x 1 grid, with the sampler always
drawing (0,0), the loop is still running after 5 iterations. -/
theorem place_mines_capacity_diverges_witness :
    place_mines_loop 2 (fun _ => ((0 : Int), (0 : Int))) 5 [] 0 = none :=
  place_mines_capacity_diverges g1 2 (fun _ => ((0 : Int), (0 : Int)))
    (fun _ => rfl) (by decide) 5 [] 0 List.nodup_nil
    (fun p hp => absurd hp (List.not_mem_nil p))
